import Mathlib

/-!
Shallow embedding of the Library_Management Go service
(`internal/services/library_service.go`, `internal/models/models.go`,
`internal/repositories`).

Modelling choices:
* UUIDs are modelled as natural numbers minted from a counter `nextId`
  (the only property the code relies on is freshness/uniqueness).
* `time.Time` values are natural numbers counting seconds since Go's zero
  time (UTC, no leap seconds).  `Truncate(24h)` is floor-truncation to a
  multiple of 86400 and `AddDate(0,0,14)` adds `14 * 86400` seconds.
* Each repository method becomes a pure function over a `LibState`; SQL
  `ORDER BY ... FIRST` becomes a deterministic minimum, SQL `UPDATE ...
  WHERE` becomes a `List.map` guarded by the `WHERE` condition.
* `gorm.DB.Transaction` commits the callback state exactly when the
  callback returns `nil`, and rolls every effect back when it returns a
  non-nil error.  This is modelled explicitly in `checkoutBook`.
* The unique indexes of the schema (`uniq_book_queue_position`,
  `uniq_user_book_reservation`) are modelled in `reservationCreate`, which
  fails with a 23505 unique violation exactly when an existing visible row
  collides.  Interference from concurrent committed inserts is passed to
  `createReservationWithRetry` as explicit extra row lists.
-/

/-- `models.BookCopyStatus`: AVAILABLE / CHECKED_OUT. -/
inductive BookCopyStatus where
  | available
  | checkedOut
deriving DecidableEq

/-- `models.Book`. -/
structure Book where
  id : Nat
  title : String
  author : String
  totalCopies : Nat
deriving DecidableEq

/-- `models.BookCopy`. -/
structure BookCopy where
  id : Nat
  bookId : Nat
  status : BookCopyStatus
deriving DecidableEq

/-- `models.Checkout`. -/
structure Checkout where
  id : Nat
  bookCopyId : Nat
  userId : Nat
  checkoutAt : Nat
  dueDate : Nat
  returnedAt : Option Nat
  fineAmount : Nat
deriving DecidableEq

/-- `models.Reservation`. -/
structure Reservation where
  id : Nat
  bookId : Nat
  userId : Nat
  queuePosition : Nat
  createdAt : Nat
deriving DecidableEq

/-- The sentinel errors of `library_service.go`, plus the raw
`gorm.ErrRecordNotFound` (surfaced unwrapped on a reload failure) and the
PostgreSQL 23505 unique violation recognised by `isUniqueViolation`. -/
inductive GoErr where
  | errNoAvailableCopy
  | errCheckoutAlreadyReturned
  | errDuplicateReservation
  | errBookNotFound
  | errUserNotFound
  | errCheckoutNotFound
  | errUniqueViolation
  | errRecordNotFound
deriving DecidableEq

/-- `LoanPeriodDays = 14`. -/
def LoanPeriodDays : Nat := 14

/-- `FinePerDay = 10`. -/
def FinePerDay : Nat := 10

/-- Seconds in `24 * time.Hour`. -/
def secondsPerDay : Nat := 86400

/-- Go `t.Truncate(24 * time.Hour)` for a (UTC) time `t` after the zero
time: floor to a multiple of 86400 seconds. -/
def truncToMidnight (t : Nat) : Nat := t / secondsPerDay * secondsPerDay

/-- `services.calculateFine(dueDate, returnedAt)`.
`!returnedAt.After(dueDate)` is `returnedAt ≤ dueDate`; both timestamps are
truncated to midnight UTC, the whole-day difference is taken and a minimum
of one day is enforced. -/
def calculateFine (dueDate returnedAt : Nat) : Nat :=
  if returnedAt ≤ dueDate then 0
  else
    let dueMidnight := truncToMidnight dueDate
    let returnedMidnight := truncToMidnight returnedAt
    let daysLate := (returnedMidnight - dueMidnight) / secondsPerDay
    (if daysLate < 1 then 1 else daysLate) * FinePerDay

/-- The persistent state: the four relations plus the users table and the
id-minting counter standing in for `uuid_generate_v4()`. -/
structure LibState where
  users : List Nat
  books : List Book
  copies : List BookCopy
  checkouts : List Checkout
  reservations : List Reservation
  nextId : Nat
deriving DecidableEq

/-- `userRepository.GetByID`: `First(&user, "id = ?", id)`. -/
def userGetByID (st : LibState) (id : Nat) : Option Nat :=
  st.users.find? (fun u => u == id)

/-- `bookRepository.GetByID`: `First(&book, "id = ?", id)`. -/
def bookGetByID (st : LibState) (id : Nat) : Option Book :=
  st.books.find? (fun b => b.id == id)

/-- The row of minimal id, as produced by `Order("id").First`. -/
def minCopyById : List BookCopy → Option BookCopy
  | [] => none
  | c :: cs =>
    match minCopyById cs with
    | none => some c
    | some d => if c.id ≤ d.id then some c else some d

/-- `bookCopyRepository.FindAvailableForUpdate`: first AVAILABLE copy of
the book in id order (`SELECT ... FOR UPDATE ORDER BY id`). -/
def findAvailableForUpdate (st : LibState) (bookID : Nat) : Option BookCopy :=
  minCopyById (st.copies.filter
    (fun c => c.bookId == bookID && c.status == BookCopyStatus.available))

/-- `bookCopyRepository.UpdateStatus`: `UPDATE book_copies SET status = ?
WHERE id = ?`. -/
def updateStatus (copies : List BookCopy) (id : Nat) (status : BookCopyStatus) :
    List BookCopy :=
  copies.map (fun c => if c.id == id then { c with status := status } else c)

/-- `checkoutRepository.GetByIDForUpdate`: `First(&checkout, "id = ?", id)`
(the `Preload("BookCopy")` join is modelled by looking the copy up in
`st.copies` at the point of use). -/
def checkoutGetByIDForUpdate (st : LibState) (id : Nat) : Option Checkout :=
  st.checkouts.find? (fun k => k.id == id)

/-- `checkoutRepository.MarkReturned`: `UPDATE checkouts SET returned_at,
fine_amount WHERE id = ? AND returned_at IS NULL`. -/
def markReturned (checkouts : List Checkout) (checkoutID returnedAt fineAmount : Nat) :
    List Checkout :=
  checkouts.map (fun k =>
    if k.id == checkoutID && k.returnedAt.isNone then
      { k with returnedAt := some returnedAt, fineAmount := fineAmount }
    else k)

/-- `checkoutRepository.ListByUser`: `WHERE user_id = ?` (no ORDER BY). -/
def listByUser (st : LibState) (userID : Nat) : List Checkout :=
  st.checkouts.filter (fun k => k.userId == userID)

/-- Ordering used by `ListByBook`'s `ORDER BY queue_position ASC`. -/
def byQueuePosition (a b : Reservation) : Prop :=
  a.queuePosition ≤ b.queuePosition

instance : DecidableRel byQueuePosition :=
  fun a b => Nat.decLe a.queuePosition b.queuePosition

instance : IsTotal Reservation byQueuePosition :=
  ⟨fun a b => Nat.le_total a.queuePosition b.queuePosition⟩

instance : IsTrans Reservation byQueuePosition :=
  ⟨fun _ _ _ => Nat.le_trans⟩

/-- `reservationRepository.ListByBook`: `WHERE book_id = ? ORDER BY
queue_position ASC`. -/
def listByBook (st : LibState) (bookID : Nat) : List Reservation :=
  List.insertionSort byQueuePosition
    (st.reservations.filter (fun r => r.bookId == bookID))

/-- `ORDER BY queue_position ASC, created_at ASC` comparison. -/
def resBefore (a b : Reservation) : Bool :=
  a.queuePosition < b.queuePosition ||
    (a.queuePosition == b.queuePosition && a.createdAt ≤ b.createdAt)

/-- The row of minimal (queue_position, created_at), as produced by
`Order("queue_position ASC, created_at ASC").First`. -/
def minResByOrder : List Reservation → Option Reservation
  | [] => none
  | r :: rs =>
    match minResByOrder rs with
    | none => some r
    | some s => if resBefore r s then some r else some s

/-- `reservationRepository.GetNextForBook`. -/
def getNextForBook (st : LibState) (bookID : Nat) : Option Reservation :=
  minResByOrder (st.reservations.filter (fun r => r.bookId == bookID))

/-- `reservationRepository.GetByBookAndUser`:
`WHERE book_id = ? AND user_id = ?`. -/
def getByBookAndUser (st : LibState) (bookID userID : Nat) : Option Reservation :=
  st.reservations.find? (fun r => r.bookId == bookID && r.userId == userID)

/-- `reservationRepository.Delete`: `DELETE FROM reservations WHERE id = ?`. -/
def reservationDelete (rows : List Reservation) (id : Nat) : List Reservation :=
  rows.filter (fun r => r.id != id)

/-- `COALESCE(MAX(queue_position), 0)` over the book's rows. -/
def maxQueuePosition (rows : List Reservation) (bookID : Nat) : Nat :=
  (rows.filter (fun r => r.bookId == bookID)).foldr
    (fun r acc => max r.queuePosition acc) 0

/-- `reservationRepository.GetNextQueuePosition`: max position plus one. -/
def getNextQueuePosition (rows : List Reservation) (bookID : Nat) : Nat :=
  maxQueuePosition rows bookID + 1

/-- The schema's unique indexes on reservations:
`uniq_book_queue_position (book_id, queue_position)` and
`uniq_user_book_reservation (book_id, user_id)`. -/
def reservationInsertConflict (rows : List Reservation) (res : Reservation) : Bool :=
  rows.any (fun r =>
    (r.bookId == res.bookId && r.queuePosition == res.queuePosition) ||
    (r.bookId == res.bookId && r.userId == res.userId))

/-- `reservationRepository.Create` against the store constraints: a
colliding row raises PostgreSQL 23505, otherwise the row is appended. -/
def reservationCreate (rows : List Reservation) (res : Reservation) :
    Except GoErr (List Reservation) :=
  if reservationInsertConflict rows res then Except.error GoErr.errUniqueViolation
  else Except.ok (rows ++ [res])

/-- The `models.Reservation` literal built before the first insert
attempt: the queue position is computed over the transaction's own view of
the rows. -/
def retryRow1 (st : LibState) (bookID userID now : Nat) : Reservation :=
  { id := st.nextId, bookId := bookID, userId := userID,
    queuePosition := getNextQueuePosition st.reservations bookID, createdAt := now }

/-- The `models.Reservation` literal rebuilt for the retried insert: the
queue position is recalculated, now seeing the racer's committed rows. -/
def retryRow2 (st : LibState) (interf1 : List Reservation)
    (bookID userID now : Nat) : Reservation :=
  { id := st.nextId, bookId := bookID, userId := userID,
    queuePosition := getNextQueuePosition (st.reservations ++ interf1) bookID,
    createdAt := now }

/-- `services.createReservationWithRetry`.  `interf1` are rows committed by
concurrent inserters and visible at the first `Create` (the race the retry
exists for); `interf2` are further rows visible only at the retried
`Create`.  The sequential executions of the service use `[] []`. -/
def createReservationWithRetry (st : LibState) (interf1 interf2 : List Reservation)
    (bookID userID now : Nat) : Except GoErr (Reservation × LibState) :=
  let res1 := retryRow1 st bookID userID now
  match reservationCreate (st.reservations ++ interf1) res1 with
  | Except.ok rows =>
      Except.ok (res1, { st with reservations := rows, nextId := st.nextId + 1 })
  | Except.error e =>
      if e == GoErr.errUniqueViolation then
        let res2 := retryRow2 st interf1 bookID userID now
        match reservationCreate (st.reservations ++ interf1 ++ interf2) res2 with
        | Except.ok rows =>
            Except.ok (res2, { st with reservations := rows, nextId := st.nextId + 1 })
        | Except.error e2 => Except.error e2
      else Except.error e

/-- Number of `reservationRepository.Create` calls issued by
`createReservationWithRetry` (same control flow). -/
def createReservationAttempts (st : LibState) (interf1 : List Reservation)
    (bookID userID now : Nat) : Nat :=
  match reservationCreate (st.reservations ++ interf1) (retryRow1 st bookID userID now) with
  | Except.ok _ => 1
  | Except.error e => if e == GoErr.errUniqueViolation then 2 else 1

/-- `services.CreateBook`: book row (TotalCopies 0), `totalCopies` fresh
AVAILABLE copies, then `IncrementTotalCopies`; returns the book with the
final count. -/
def createBook (st : LibState) (title author : String) (totalCopies : Nat) :
    Book × LibState :=
  let book : Book :=
    { id := st.nextId, title := title, author := author, totalCopies := totalCopies }
  let newCopies := (List.range totalCopies).map (fun i =>
    ({ id := st.nextId + 1 + i, bookId := st.nextId,
       status := BookCopyStatus.available } : BookCopy))
  (book,
   { st with
       books := st.books ++ [book],
       copies := st.copies ++ newCopies,
       nextId := st.nextId + 1 + totalCopies })

/-- `services.AddBookCopy`: NotFound when the book is missing, otherwise a
fresh AVAILABLE copy plus `IncrementTotalCopies`. -/
def addBookCopy (st : LibState) (bookID : Nat) : Except GoErr (BookCopy × LibState) :=
  match bookGetByID st bookID with
  | none => Except.error GoErr.errBookNotFound
  | some _ =>
      let copy : BookCopy :=
        { id := st.nextId, bookId := bookID, status := BookCopyStatus.available }
      Except.ok (copy,
        { st with
            copies := st.copies ++ [copy],
            books := st.books.map (fun b =>
              if b.id == bookID then { b with totalCopies := b.totalCopies + 1 } else b),
            nextId := st.nextId + 1 })

/-- The tagged result of `CheckoutBook` (`(checkout, nil, nil)` or
`(nil, reservation, nil)`). -/
inductive CheckoutResult where
  | loan (c : Checkout)
  | reserved (r : Reservation)
deriving DecidableEq

/-- Outcome of the `db.Transaction` callback inside `CheckoutBook`: the
error value the callback returns, together with the state it built and the
closure-captured result pointers. -/
inductive CheckoutTx where
  | loanOk (c : Checkout) (st1 : LibState)
  | reservationMade (r : Reservation) (st1 : LibState)
  | txError (e : GoErr)
deriving DecidableEq

/-- The `db.Transaction` callback of `services.CheckoutBook`: validate
user, validate book, try to lock an AVAILABLE copy; on success mark it
CHECKED_OUT and insert a 14-day checkout (callback returns nil); on
RecordNotFound run the duplicate check and insert a reservation, then
return `ErrNoAvailableCopy` (a non-nil error). -/
def checkoutBookTx (st : LibState) (bookID userID now : Nat) : CheckoutTx :=
  if (userGetByID st userID).isNone then CheckoutTx.txError GoErr.errUserNotFound
  else if (bookGetByID st bookID).isNone then CheckoutTx.txError GoErr.errBookNotFound
  else
    match findAvailableForUpdate st bookID with
    | some copy =>
        let co : Checkout :=
          { id := st.nextId, bookCopyId := copy.id, userId := userID,
            checkoutAt := now, dueDate := now + LoanPeriodDays * secondsPerDay,
            returnedAt := none, fineAmount := 0 }
        CheckoutTx.loanOk co
          { st with
              copies := updateStatus st.copies copy.id BookCopyStatus.checkedOut,
              checkouts := st.checkouts ++ [co],
              nextId := st.nextId + 1 }
    | none =>
        match getByBookAndUser st bookID userID with
        | some _ => CheckoutTx.txError GoErr.errDuplicateReservation
        | none =>
            match createReservationWithRetry st [] [] bookID userID now with
            | Except.ok (res, st1) => CheckoutTx.reservationMade res st1
            | Except.error e => CheckoutTx.txError e

/-- `services.CheckoutBook`.  `gorm.DB.Transaction` commits only when the
callback returns nil; on the reservation path the callback returns
`ErrNoAvailableCopy`, a non-nil error, so gorm rolls the transaction back
and the reservation insert is discarded even though the outer function
converts that error into a success carrying `resultReservation`. -/
def checkoutBook (st : LibState) (bookID userID now : Nat) :
    Except GoErr (CheckoutResult × LibState) :=
  match checkoutBookTx st bookID userID now with
  | CheckoutTx.loanOk co st1 => Except.ok (CheckoutResult.loan co, st1)
  | CheckoutTx.reservationMade res _ => Except.ok (CheckoutResult.reserved res, st)
  | CheckoutTx.txError e => Except.error e

/-- `services.ReturnCheckout`: lock the checkout row, guard double return,
compute the fine, mark returned, free the copy, and if a reservation for
the copy's book exists promote it (re-claim the copy, delete the entry,
open a fresh 14-day checkout read off a second clock read `now2`); finally
reload and return the original checkout.  Errors abort the transaction
with no state change. -/
def returnCheckout (st : LibState) (checkoutID now now2 : Nat) :
    Except GoErr (Checkout × LibState) :=
  match checkoutGetByIDForUpdate st checkoutID with
  | none => Except.error GoErr.errCheckoutNotFound
  | some checkout =>
      if checkout.returnedAt.isSome then Except.error GoErr.errCheckoutAlreadyReturned
      else
        let fine := calculateFine checkout.dueDate now
        let checkouts1 := markReturned st.checkouts checkout.id now fine
        let copies1 := updateStatus st.copies checkout.bookCopyId BookCopyStatus.available
        let bookID :=
          ((st.copies.find? (fun c => c.id == checkout.bookCopyId)).map BookCopy.bookId).getD 0
        let st1 := { st with checkouts := checkouts1, copies := copies1 }
        match getNextForBook st1 bookID with
        | none =>
            match checkoutGetByIDForUpdate st1 checkoutID with
            | none => Except.error GoErr.errRecordNotFound
            | some reloaded => Except.ok (reloaded, st1)
        | some res =>
            let newCheckout : Checkout :=
              { id := st.nextId, bookCopyId := checkout.bookCopyId, userId := res.userId,
                checkoutAt := now2, dueDate := now2 + LoanPeriodDays * secondsPerDay,
                returnedAt := none, fineAmount := 0 }
            let st2 :=
              { st with
                  checkouts := checkouts1 ++ [newCheckout],
                  copies := updateStatus copies1 checkout.bookCopyId BookCopyStatus.checkedOut,
                  reservations := reservationDelete st.reservations res.id,
                  nextId := st.nextId + 1 }
            match checkoutGetByIDForUpdate st2 checkoutID with
            | none => Except.error GoErr.errRecordNotFound
            | some reloaded => Except.ok (reloaded, st2)

/-- `services.ListUserCheckouts` (never inspects whether the user exists). -/
def listUserCheckouts (st : LibState) (userID : Nat) : Except GoErr (List Checkout) :=
  Except.ok (listByUser st userID)

/-- `services.ListReservationsForBook` (never inspects whether the book
exists). -/
def listReservationsForBook (st : LibState) (bookID : Nat) :
    Except GoErr (List Reservation) :=
  Except.ok (listByBook st bookID)

/-- Number of open (not yet returned) checkouts referencing a copy id. -/
def openCount (checkouts : List Checkout) (copyId : Nat) : Nat :=
  (checkouts.filter (fun k => k.bookCopyId == copyId && k.returnedAt.isNone)).length

/-- States reachable from an initial catalogue (any users, empty
relations) by the four workflow operations, with arbitrary parameters and
clock values; failing operations leave the state unchanged. -/
inductive Reach : LibState → Prop where
  | init (users : List Nat) (nid : Nat) :
      Reach { users := users, books := [], copies := [], checkouts := [],
              reservations := [], nextId := nid }
  | stepCreateBook {st : LibState} (title author : String) (n : Nat)
      (h : Reach st) : Reach (createBook st title author n).2
  | stepAddCopy {st st1 : LibState} {c : BookCopy} (bookID : Nat) (h : Reach st)
      (hop : addBookCopy st bookID = Except.ok (c, st1)) : Reach st1
  | stepCheckout {st st1 : LibState} {r : CheckoutResult} (bookID userID now : Nat)
      (h : Reach st)
      (hop : checkoutBook st bookID userID now = Except.ok (r, st1)) : Reach st1
  | stepReturn {st st1 : LibState} {c : Checkout} (checkoutID now now2 : Nat)
      (h : Reach st)
      (hop : returnCheckout st checkoutID now now2 = Except.ok (c, st1)) : Reach st1

/-- The row an enqueue appends: a fresh entry at `getNextQueuePosition`,
exactly as both insert attempts of `createReservationWithRetry` build it. -/
def enqueuedRow (rows : List Reservation) (id bookID userID createdAt : Nat) :
    Reservation :=
  { id := id, bookId := bookID, userId := userID,
    queuePosition := getNextQueuePosition rows bookID, createdAt := createdAt }

/-- Evolutions of the reservation relation itself: enqueues always insert
at `getNextQueuePosition` (as `createReservationWithRetry` does on either
attempt), deletions remove a row by id (promotion). -/
inductive QReach : List Reservation → Prop where
  | nil : QReach []
  | enqueue {rows : List Reservation} (id bookID userID createdAt : Nat)
      (h : QReach rows) :
      QReach (rows ++ [enqueuedRow rows id bookID userID createdAt])
  | dequeue {rows : List Reservation} (id : Nat) (h : QReach rows) :
      QReach (reservationDelete rows id)

/-- Per-book queue positions are strictly increasing in assignment order. -/
def posIncreasing (rows : List Reservation) : Prop :=
  List.Pairwise (fun r s => r.bookId = s.bookId → r.queuePosition < s.queuePosition) rows

/-- The strengthened state invariant used for the reachability induction:
fresh-id bounds, distinct copy and checkout ids, and the exact open-loan
count matching each copy's status. -/
def StateInv (st : LibState) : Prop :=
  (∀ c ∈ st.copies, c.id < st.nextId) ∧
  (∀ k ∈ st.checkouts, k.id < st.nextId ∧ k.bookCopyId < st.nextId) ∧
  (st.copies.map BookCopy.id).Nodup ∧
  (st.checkouts.map Checkout.id).Nodup ∧
  (∀ c ∈ st.copies,
    openCount st.checkouts c.id = if c.status = BookCopyStatus.checkedOut then 1 else 0)

/-- Days late according to the spec sentence: truncate both timestamps to
the start of their UTC day, take the whole-day difference, floor, minimum
one day. -/
def specDaysLate (due returned : Nat) : Nat :=
  max 1 ((truncToMidnight returned - truncToMidnight due) / secondsPerDay)

/-- The fine value the spec sentence describes: 0 when the return is not
strictly after the due timestamp, otherwise `daysLate * 10`. -/
def fineSpecFormula (due returned : Nat) : Nat :=
  if returned ≤ due then 0 else specDaysLate due returned * 10

/-! ### Concrete fixture states used to exercise the operations -/

/-- A catalogue book record used by the concrete scenarios. -/
def fixtureBook : Book :=
  { id := 2, title := "t", author := "a", totalCopies := 1 }

/-- One user, one book, no copies at all: every checkout falls through to
the reservation path. -/
def stNoCopies : LibState :=
  { users := [1], books := [fixtureBook], copies := [], checkouts := [],
    reservations := [], nextId := 3 }

/-- The reservation row the no-copy checkout builds (and rolls back). -/
def rolledBackRow : Reservation :=
  { id := 3, bookId := 2, userId := 1, queuePosition := 1, createdAt := 100 }

/-- One user, one book with a single AVAILABLE copy. -/
def stOneAvail : LibState :=
  { users := [1], books := [fixtureBook],
    copies := [{ id := 3, bookId := 2, status := BookCopyStatus.available }],
    checkouts := [], reservations := [], nextId := 4 }

/-- The open loan of the concrete return scenarios: copy 3, user 1,
started at 100, due 14 days later. -/
def fixtureLoan : Checkout :=
  { id := 4, bookCopyId := 3, userId := 1, checkoutAt := 100,
    dueDate := 100 + 14 * 86400, returnedAt := none, fineAmount := 0 }

/-- User 5 waiting at queue position 1 for book 2. -/
def fixtureEntry : Reservation :=
  { id := 6, bookId := 2, userId := 5, queuePosition := 1, createdAt := 150 }

/-- Copy 3 of book 2 is out to user 1 (open loan 4, due at day 14 plus
100 s); user 5 waits at queue position 1. -/
def stLoanAndQueue : LibState :=
  { users := [1, 5], books := [fixtureBook],
    copies := [{ id := 3, bookId := 2, status := BookCopyStatus.checkedOut }],
    checkouts := [fixtureLoan],
    reservations := [fixtureEntry],
    nextId := 7 }

/-- Same as `stLoanAndQueue` but with an empty reservation queue. -/
def stLoanNoQueue : LibState :=
  { users := [1], books := [fixtureBook],
    copies := [{ id := 3, bookId := 2, status := BookCopyStatus.checkedOut }],
    checkouts := [fixtureLoan],
    reservations := [], nextId := 7 }

/-- Interference row: a racer's committed entry for book 2 at position 1,
colliding with the first insert attempt. -/
def racerRow : Reservation :=
  { id := 9, bookId := 2, userId := 8, queuePosition := 1, createdAt := 90 }

/-- The state reached from a seeded user by `CreateBook("t","a",1)` then
`CheckoutBook(2, 1)` at time 100: one copy out on one open loan. -/
def stReachLoan : LibState :=
  { users := [1], books := [fixtureBook],
    copies := [{ id := 3, bookId := 2, status := BookCopyStatus.checkedOut }],
    checkouts := [fixtureLoan], reservations := [], nextId := 5 }

/-! ### Helper lemmas about the repository primitives -/

theorem find?_append_some {α : Type} {p : α → Bool} {l₁ l₂ : List α} {a : α}
    (h : l₁.find? p = some a) : (l₁ ++ l₂).find? p = some a := by
  rw [List.find?_append, h]
  rfl

theorem find?_map_of_pred_comm {α : Type} (g : α → α) (p : α → Bool)
    (hp : ∀ x, p (g x) = p x) (l : List α) :
    (l.map g).find? p = (l.find? p).map g := by
  induction l with
  | nil => rfl
  | cons x xs ih =>
    by_cases hx : p x
    · have hgx : p (g x) = true := by rw [hp]; exact hx
      rw [List.map_cons, List.find?_cons_of_pos _ hgx, List.find?_cons_of_pos _ hx]
      rfl
    · have hgx : ¬ p (g x) = true := by rw [hp]; exact hx
      rw [List.map_cons, List.find?_cons_of_neg _ hgx, List.find?_cons_of_neg _ hx]
      exact ih

theorem markReturned_find? (l : List Checkout) (i t f j : Nat) :
    (markReturned l i t f).find? (fun k => k.id == j) =
      (l.find? (fun k => k.id == j)).map (fun k =>
        if k.id == i && k.returnedAt.isNone then
          { k with returnedAt := some t, fineAmount := f } else k) := by
  apply find?_map_of_pred_comm
  intro x
  by_cases h : (x.id == i && x.returnedAt.isNone) = true <;> simp [h]

theorem markReturned_map_id (l : List Checkout) (i t f : Nat) :
    (markReturned l i t f).map Checkout.id = l.map Checkout.id := by
  unfold markReturned
  rw [List.map_map]
  apply List.map_congr_left
  intro x _
  by_cases h : (x.id == i && x.returnedAt.isNone) = true <;> simp [h, Function.comp]

theorem markReturned_eq_self (l : List Checkout) (i t f : Nat)
    (h : ∀ y ∈ l, y.id ≠ i) : markReturned l i t f = l := by
  unfold markReturned
  induction l with
  | nil => rfl
  | cons x xs ih =>
    have hx : (x.id == i) = false := by
      simp only [beq_eq_false_iff_ne, ne_eq]
      exact h x (List.mem_cons_self x xs)
    simp only [List.map_cons, hx, Bool.false_and, Bool.false_eq_true, if_false]
    rw [ih (fun y hy => h y (List.mem_cons_of_mem x hy))]

theorem updateStatus_map_id (l : List BookCopy) (i : Nat) (s : BookCopyStatus) :
    (updateStatus l i s).map BookCopy.id = l.map BookCopy.id := by
  unfold updateStatus
  rw [List.map_map]
  apply List.map_congr_left
  intro x _
  by_cases h : (x.id == i) = true <;> simp [h, Function.comp]

theorem updateStatus_eq_self (l : List BookCopy) (i : Nat) (s : BookCopyStatus)
    (h : ∀ c ∈ l, c.id ≠ i) : updateStatus l i s = l := by
  unfold updateStatus
  induction l with
  | nil => rfl
  | cons x xs ih =>
    have hx : ¬ (x.id == i) = true := by
      simp only [beq_iff_eq]
      exact h x (List.mem_cons_self x xs)
    simp only [List.map_cons, if_neg hx]
    rw [ih (fun y hy => h y (List.mem_cons_of_mem x hy))]

theorem updateStatus_updateStatus (l : List BookCopy) (i : Nat)
    (a b : BookCopyStatus) :
    updateStatus (updateStatus l i a) i b = updateStatus l i b := by
  unfold updateStatus
  rw [List.map_map]
  apply List.map_congr_left
  intro x _
  by_cases h : (x.id == i) = true <;> simp [h, Function.comp]

theorem openCount_append (l m : List Checkout) (i : Nat) :
    openCount (l ++ m) i = openCount l i + openCount m i := by
  simp [openCount, List.filter_append]

theorem openCount_eq_zero (l : List Checkout) (i : Nat)
    (h : ∀ k ∈ l, k.bookCopyId ≠ i) : openCount l i = 0 := by
  unfold openCount
  rw [List.length_eq_zero]
  rw [List.filter_eq_nil_iff]
  intro k hk
  simp only [Bool.and_eq_true, beq_iff_eq, not_and]
  intro hbc
  exact absurd hbc (h k hk)

theorem minCopyById_mem : ∀ {l : List BookCopy} {c : BookCopy},
    minCopyById l = some c → c ∈ l := by
  intro l
  induction l with
  | nil => intro c h; cases h
  | cons x xs ih =>
    intro c h
    unfold minCopyById at h
    split at h
    next => cases h; exact List.mem_cons_self _ _
    next d hxs =>
      split at h
      · cases h; exact List.mem_cons_self _ _
      · cases h; exact List.mem_cons_of_mem _ (ih hxs)

theorem minCopyById_eq_none {l : List BookCopy} :
    minCopyById l = none ↔ l = [] := by
  cases l with
  | nil => simp [minCopyById]
  | cons x xs =>
    simp only [minCopyById, iff_false, ne_eq, reduceCtorEq]
    cases hxs : minCopyById xs with
    | none => simp
    | some d =>
      by_cases hle : x.id ≤ d.id <;> simp [hle]

theorem minResByOrder_mem : ∀ {l : List Reservation} {r : Reservation},
    minResByOrder l = some r → r ∈ l := by
  intro l
  induction l with
  | nil => intro r h; cases h
  | cons x xs ih =>
    intro r h
    unfold minResByOrder at h
    split at h
    next => cases h; exact List.mem_cons_self _ _
    next s hxs =>
      split at h
      · cases h; exact List.mem_cons_self _ _
      · cases h; exact List.mem_cons_of_mem _ (ih hxs)

theorem minResByOrder_eq_none {l : List Reservation} :
    minResByOrder l = none ↔ l = [] := by
  cases l with
  | nil => simp [minResByOrder]
  | cons x xs =>
    simp only [minResByOrder, iff_false, ne_eq, reduceCtorEq]
    cases hxs : minResByOrder xs with
    | none => simp
    | some s =>
      by_cases hb : resBefore x s = true <;> simp [hb]

theorem resBefore_refl (a : Reservation) : resBefore a a = true := by
  simp [resBefore]

theorem resBefore_total (a b : Reservation) :
    resBefore a b = true ∨ resBefore b a = true := by
  simp only [resBefore, Bool.or_eq_true, Bool.and_eq_true, beq_iff_eq,
    decide_eq_true_eq]
  omega

theorem resBefore_trans {a b c : Reservation} (h1 : resBefore a b = true)
    (h2 : resBefore b c = true) : resBefore a c = true := by
  simp only [resBefore, Bool.or_eq_true, Bool.and_eq_true, beq_iff_eq,
    decide_eq_true_eq] at h1 h2 ⊢
  omega

theorem minResByOrder_min : ∀ {l : List Reservation} {r : Reservation},
    minResByOrder l = some r → ∀ s ∈ l, resBefore r s = true := by
  intro l
  induction l with
  | nil => intro r h; cases h
  | cons x xs ih =>
    intro r h s hs
    unfold minResByOrder at h
    split at h
    next hxs =>
      cases h
      have hnil : xs = [] := minResByOrder_eq_none.mp hxs
      subst hnil
      rcases List.mem_cons.mp hs with h1 | h1
      · subst h1; exact resBefore_refl _
      · cases h1
    next m hxs =>
      split at h
      next hb =>
        cases h
        rcases List.mem_cons.mp hs with h1 | h1
        · subst h1; exact resBefore_refl _
        · exact resBefore_trans hb (ih hxs s h1)
      next hb =>
        cases h
        rcases List.mem_cons.mp hs with h1 | h1
        · subst h1
          rcases resBefore_total s r with h2 | h2
          · exact absurd h2 hb
          · exact h2
        · exact ih hxs s h1

theorem le_foldr_max (l : List Reservation) (r : Reservation) (h : r ∈ l) :
    r.queuePosition ≤ l.foldr (fun x acc => max x.queuePosition acc) 0 := by
  induction l with
  | nil => cases h
  | cons x xs ih =>
    rcases List.mem_cons.mp h with h1 | h1
    · subst h1; exact Nat.le_max_left _ _
    · exact Nat.le_trans (ih h1) (Nat.le_max_right _ _)

theorem foldr_max_attained (l : List Reservation) (h : l ≠ []) :
    ∃ r ∈ l, l.foldr (fun x acc => max x.queuePosition acc) 0 = r.queuePosition := by
  induction l with
  | nil => exact absurd rfl h
  | cons x xs ih =>
    cases xs with
    | nil =>
      refine ⟨x, List.mem_cons_self _ _, ?_⟩
      simp
    | cons y ys =>
      obtain ⟨r, hr, heq⟩ := ih (by simp)
      rcases Nat.le_total x.queuePosition
          ((y :: ys).foldr (fun x acc => max x.queuePosition acc) 0) with hle | hle
      · refine ⟨r, List.mem_cons_of_mem _ hr, ?_⟩
        rw [List.foldr_cons, max_eq_right hle, heq]
      · refine ⟨x, List.mem_cons_self _ _, ?_⟩
        rw [List.foldr_cons, max_eq_left hle]

theorem le_maxQueuePosition {rows : List Reservation} {b : Nat} {r : Reservation}
    (hr : r ∈ rows) (hb : r.bookId = b) :
    r.queuePosition ≤ maxQueuePosition rows b := by
  unfold maxQueuePosition
  apply le_foldr_max
  rw [List.mem_filter]
  exact ⟨hr, by simp [hb]⟩

theorem maxQueuePosition_attained {rows : List Reservation} {b : Nat}
    (h : rows.filter (fun r => r.bookId == b) ≠ []) :
    ∃ r ∈ rows, r.bookId = b ∧ maxQueuePosition rows b = r.queuePosition := by
  obtain ⟨r, hr, heq⟩ := foldr_max_attained _ h
  rw [List.mem_filter] at hr
  exact ⟨r, hr.1, by simpa using hr.2, heq⟩

theorem openCount_markReturned (l : List Checkout) (k : Checkout) (t f i : Nat)
    (hn : (l.map Checkout.id).Nodup) (hk : k ∈ l) (ho : k.returnedAt = none) :
    openCount l i =
      openCount (markReturned l k.id t f) i + (if k.bookCopyId = i then 1 else 0) := by
  induction l with
  | nil => cases hk
  | cons x xs ih =>
    rw [List.map_cons, List.nodup_cons] at hn
    rcases List.mem_cons.mp hk with h1 | h1
    · subst h1
      have hxs : markReturned xs k.id t f = xs := by
        apply markReturned_eq_self
        intro y hy hcontra
        exact hn.1 (hcontra ▸ List.mem_map_of_mem Checkout.id hy)
      have hhead : (k.id == k.id && k.returnedAt.isNone) = true := by
        simp [ho]
      have hmr : markReturned (k :: xs) k.id t f =
          ({ k with returnedAt := some t, fineAmount := f } : Checkout) :: xs := by
        unfold markReturned at hxs ⊢
        rw [List.map_cons, if_pos hhead, hxs]
      rw [hmr]
      unfold openCount
      rw [List.filter_cons, List.filter_cons]
      by_cases hbc : k.bookCopyId = i
      · have hbcb : (k.bookCopyId == i) = true := by simpa using hbc
        simp [hbcb, ho, hbc]
      · have hbcb : (k.bookCopyId == i) = false := by simpa using hbc
        simp [hbcb, hbc]
    · have hxid : ¬ x.id = k.id := fun hcontra =>
        hn.1 (hcontra ▸ List.mem_map_of_mem Checkout.id h1)
      have hxid2 : (x.id == k.id) = false := by simpa using hxid
      have hmr : markReturned (x :: xs) k.id t f = x :: markReturned xs k.id t f := by
        unfold markReturned
        rw [List.map_cons]
        simp [hxid2]
      rw [hmr]
      unfold openCount
      rw [List.filter_cons, List.filter_cons]
      have hrec := ih hn.2 h1
      unfold openCount at hrec
      by_cases hx : (x.bookCopyId == i && x.returnedAt.isNone) = true
      · simp only [hx, if_true, List.length_cons]
        omega
      · simp only [hx, Bool.false_eq_true, if_false]
        omega

/-! ### Claim theorems -/

/-- Claim C2: for every pair of timestamps, `calculateFine` returns 0 when
the return is not strictly after the due instant, and otherwise
`daysLate * 10` with `daysLate = max 1 (floor of the whole-day difference
of the UTC-midnight truncations)`; a return strictly past due on the same
UTC calendar day is charged exactly 10. -/
theorem calculateFine_matches_spec (due returned : Nat) :
    calculateFine due returned = fineSpecFormula due returned ∧
    (due < returned → returned / secondsPerDay = due / secondsPerDay →
      calculateFine due returned = 10) := by
  constructor
  · by_cases h : returned ≤ due
    · simp [calculateFine, fineSpecFormula, h]
    · simp only [calculateFine, fineSpecFormula, specDaysLate, FinePerDay, h,
        if_false]
      have hmax : (if (truncToMidnight returned - truncToMidnight due) / secondsPerDay < 1
            then 1 else (truncToMidnight returned - truncToMidnight due) / secondsPerDay) =
          max 1 ((truncToMidnight returned - truncToMidnight due) / secondsPerDay) := by
        split <;> omega
      rw [hmax]
  · intro h1 h2
    have h3 : ¬ returned ≤ due := by omega
    simp only [calculateFine, truncToMidnight, FinePerDay, h3, if_false, h2]
    simp

/-- Witness for C2 at a concrete same-calendar-day overdue return. -/
theorem calculateFine_matches_spec_witness :
    calculateFine 86500 86600 = fineSpecFormula 86500 86600 ∧
      calculateFine 86500 86600 = 10 :=
  ⟨(calculateFine_matches_spec 86500 86600).1,
   (calculateFine_matches_spec 86500 86600).2 (by decide) (by decide)⟩

/-- Claim C10: the two listing operations succeed for every id (present or
absent), returning exactly the matching rows — the empty list when nothing
matches — and reservations come out sorted by ascending queue position. -/
theorem listEndpoints_total_and_sorted (st : LibState) (userID bookID : Nat) :
    (∃ l, listUserCheckouts st userID = Except.ok l ∧
      ∀ k, k ∈ l ↔ (k ∈ st.checkouts ∧ k.userId = userID)) ∧
    (∃ l, listReservationsForBook st bookID = Except.ok l ∧
      (∀ r, r ∈ l ↔ (r ∈ st.reservations ∧ r.bookId = bookID)) ∧
      List.Sorted byQueuePosition l) ∧
    ((∀ k ∈ st.checkouts, k.userId ≠ userID) →
      listUserCheckouts st userID = Except.ok []) ∧
    ((∀ r ∈ st.reservations, r.bookId ≠ bookID) →
      listReservationsForBook st bookID = Except.ok []) := by
  refine ⟨⟨listByUser st userID, rfl, ?_⟩,
    ⟨listByBook st bookID, rfl, ?_, ?_⟩, ?_, ?_⟩
  · intro k
    simp [listByUser, List.mem_filter]
  · intro r
    unfold listByBook
    rw [(List.perm_insertionSort byQueuePosition _).mem_iff]
    simp [List.mem_filter]
  · exact List.sorted_insertionSort byQueuePosition _
  · intro h
    unfold listUserCheckouts listByUser
    have hnil : st.checkouts.filter (fun k => k.userId == userID) = [] := by
      rw [List.filter_eq_nil_iff]
      intro k hk
      simpa using h k hk
    rw [hnil]
  · intro h
    unfold listReservationsForBook listByBook
    have hnil : st.reservations.filter (fun r => r.bookId == bookID) = [] := by
      rw [List.filter_eq_nil_iff]
      intro r hr
      simpa using h r hr
    rw [hnil]
    rfl

/-- Witness for C10 at a state where neither id exists. -/
theorem listEndpoints_total_and_sorted_witness :
    listUserCheckouts stNoCopies 7 = Except.ok [] :=
  (listEndpoints_total_and_sorted stNoCopies 7 9).2.2.1 (by intro k hk; cases hk)

/-- Claim C1 (refuted, code bug): the checkout-with-no-free-copy path does
build and return a new ReservationEntry, but the transaction callback
returns `ErrNoAvailableCopy`, a non-nil error, so `gorm.DB.Transaction`
rolls the insert back: the committed state after the call is the original
one and contains no reservation, contradicting the claimed commit. -/
theorem checkoutBook_reservation_not_committed :
    checkoutBook stNoCopies 2 1 100 =
      Except.ok (CheckoutResult.reserved rolledBackRow, stNoCopies) ∧
    stNoCopies.reservations = [] := by
  constructor
  · rfl
  · rfl

/-- Claim C7 (amended): `GetNextQueuePosition` returns one plus the
maximum existing position of the class (so 1 when the class has no
entries), and along any sequence of enqueues and deletions each assigned
position is strictly greater than every position then present for the
class, so the entries simultaneously present for a class always hold
pairwise distinct positions, strictly increasing in assignment order.
Positions are not distinct over the whole history: `MAX+1` is computed
over the current rows only, so numbering restarts once the class's queue
empties (see the counterexample). -/
theorem nextPosition_and_fifo :
    (∀ (rows : List Reservation) (b : Nat),
      (rows.filter (fun r => r.bookId == b) = [] → getNextQueuePosition rows b = 1) ∧
      (∀ r ∈ rows, r.bookId = b → r.queuePosition < getNextQueuePosition rows b) ∧
      (rows.filter (fun r => r.bookId == b) ≠ [] →
        ∃ r ∈ rows, r.bookId = b ∧ getNextQueuePosition rows b = r.queuePosition + 1)) ∧
    (∀ rows, QReach rows → posIncreasing rows) := by
  constructor
  · intro rows b
    refine ⟨?_, ?_, ?_⟩
    · intro h
      unfold getNextQueuePosition maxQueuePosition
      rw [h]
      rfl
    · intro r hr hb
      have := le_maxQueuePosition hr hb
      unfold getNextQueuePosition
      omega
    · intro h
      obtain ⟨r, hr, hb, heq⟩ := maxQueuePosition_attained h
      exact ⟨r, hr, hb, by unfold getNextQueuePosition; omega⟩
  · intro rows h
    induction h with
    | nil => exact List.Pairwise.nil
    | enqueue id bookID userID createdAt h ih =>
      unfold posIncreasing at ih ⊢
      rw [List.pairwise_append]
      refine ⟨ih, List.pairwise_singleton _ _, ?_⟩
      intro a ha e he hab
      rw [List.mem_singleton] at he
      subst he
      simp only [enqueuedRow] at hab ⊢
      have := le_maxQueuePosition ha hab
      unfold getNextQueuePosition
      omega
    | dequeue id h ih =>
      unfold posIncreasing at ih ⊢
      unfold reservationDelete
      exact List.Pairwise.sublist (List.filter_sublist _) ih

/-- Witness for C7: an enqueue after one existing entry, and the empty
queue giving position 1. -/
theorem nextPosition_and_fifo_witness :
    posIncreasing ([] ++ [enqueuedRow [] 6 2 5 150] ++
      [enqueuedRow ([] ++ [enqueuedRow [] 6 2 5 150]) 9 2 8 160]) ∧
    getNextQueuePosition [] 2 = 1 :=
  ⟨nextPosition_and_fifo.2 _
    (QReach.enqueue 9 2 8 160 (QReach.enqueue 6 2 5 150 QReach.nil)),
   (nextPosition_and_fifo.1 [] 2).1 rfl⟩

/-- Claim C7 (counterexample): positions assigned over time are neither
strictly increasing nor pairwise distinct.  Enqueueing for book 2 on the
empty queue assigns position 1; after that entry is deleted (a head
promotion), the class's queue is empty again, so the next enqueue is also
assigned position 1 — `GetNextQueuePosition` is `MAX+1` over the rows
currently present only. -/
theorem positions_reused_after_dequeue :
    QReach (reservationDelete ([] ++ [enqueuedRow [] 6 2 5 150]) 6) ∧
    reservationDelete ([] ++ [enqueuedRow [] 6 2 5 150]) 6 = [] ∧
    (enqueuedRow [] 6 2 5 150).queuePosition = 1 ∧
    (enqueuedRow (reservationDelete ([] ++ [enqueuedRow [] 6 2 5 150]) 6) 9 2 8 160).queuePosition = 1 :=
  ⟨QReach.dequeue 6 (QReach.enqueue 6 2 5 150 QReach.nil), rfl, rfl, rfl⟩

theorem noConflict_iff (rows : List Reservation) (res : Reservation) :
    reservationInsertConflict rows res = false ↔
      ∀ r ∈ rows, ¬(r.bookId = res.bookId ∧ r.queuePosition = res.queuePosition) ∧
        ¬(r.bookId = res.bookId ∧ r.userId = res.userId) := by
  simp only [reservationInsertConflict, List.any_eq_false, Bool.or_eq_true,
    Bool.and_eq_true, beq_iff_eq, not_or, not_and]


/-- Claim C8: the reservation insert is attempted at most twice; every
successful outcome (first try or retry) leaves exactly one copy of the new
entry, at a queue position no other entry of the class holds; an error is
surfaced only when the retried insert also hit a uniqueness conflict; and
when the retry is the attempt that succeeded, its position was recomputed
over the rows visible after the first conflict. -/
theorem reservationRetry_bounded (st : LibState) (interf1 interf2 : List Reservation)
    (bookID userID now : Nat) :
    createReservationAttempts st interf1 bookID userID now ≤ 2 ∧
    (∀ res st1,
      createReservationWithRetry st interf1 interf2 bookID userID now =
        Except.ok (res, st1) →
      List.count res st1.reservations = 1 ∧ res.bookId = bookID ∧ res.userId = userID ∧
      ∀ r ∈ st1.reservations, r.bookId = bookID →
        r.queuePosition = res.queuePosition → r = res) ∧
    (∀ e,
      createReservationWithRetry st interf1 interf2 bookID userID now =
        Except.error e →
      e = GoErr.errUniqueViolation ∧
      createReservationAttempts st interf1 bookID userID now = 2) ∧
    (∀ res st1,
      createReservationWithRetry st interf1 interf2 bookID userID now =
        Except.ok (res, st1) →
      createReservationAttempts st interf1 bookID userID now = 2 →
      res.queuePosition = getNextQueuePosition (st.reservations ++ interf1) bookID) := by
  by_cases h1 : reservationInsertConflict (st.reservations ++ interf1)
      (retryRow1 st bookID userID now) = true
  · have h2a : reservationInsertConflict (st.reservations ++ (interf1 ++ interf2))
        (retryRow2 st interf1 bookID userID now) =
        reservationInsertConflict (st.reservations ++ interf1 ++ interf2)
          (retryRow2 st interf1 bookID userID now) := by
      rw [List.append_assoc]
    by_cases h2 : reservationInsertConflict (st.reservations ++ interf1 ++ interf2)
        (retryRow2 st interf1 bookID userID now) = true
    · have h2' : reservationInsertConflict (st.reservations ++ (interf1 ++ interf2))
          (retryRow2 st interf1 bookID userID now) = true := h2a.trans h2
      refine ⟨?_, ?_, ?_, ?_⟩
      · simp [createReservationAttempts, reservationCreate, h1]
      · intro res st1 hok
        simp [createReservationWithRetry, reservationCreate, h1, h2'] at hok
      · intro e herr
        simp [createReservationWithRetry, reservationCreate, h1, h2'] at herr
        subst herr
        exact ⟨rfl, by simp [createReservationAttempts, reservationCreate, h1]⟩
      · intro res st1 hok
        simp [createReservationWithRetry, reservationCreate, h1, h2'] at hok
    · rw [Bool.not_eq_true] at h2
      have h2' : reservationInsertConflict (st.reservations ++ (interf1 ++ interf2))
          (retryRow2 st interf1 bookID userID now) = false := h2a.trans h2
      refine ⟨?_, ?_, ?_, ?_⟩
      · simp [createReservationAttempts, reservationCreate, h1]
      · intro res st1 hok
        simp [createReservationWithRetry, reservationCreate, h1, h2'] at hok
        obtain ⟨hres, hst⟩ := hok
        subst hres
        subst hst
        have hnc := (noConflict_iff _ _).mp h2'
        refine ⟨?_, rfl, rfl, ?_⟩
        · have hnotmem : retryRow2 st interf1 bookID userID now ∉
              st.reservations ++ (interf1 ++ interf2) := by
            intro hmem
            exact ((hnc _ hmem).1) ⟨rfl, rfl⟩
          have hz := List.count_eq_zero.mpr hnotmem
          simp only [List.count_append] at hz ⊢
          have hone : List.count (retryRow2 st interf1 bookID userID now)
              [retryRow2 st interf1 bookID userID now] = 1 := by simp
          omega
        · intro r hr hb hq
          simp only [List.mem_append, List.mem_singleton] at hr
          rcases hr with h | h | h | h
          · exact absurd ⟨hb, hq⟩ (hnc r (by simp [List.mem_append, h])).1
          · exact absurd ⟨hb, hq⟩ (hnc r (by simp [List.mem_append, h])).1
          · exact absurd ⟨hb, hq⟩ (hnc r (by simp [List.mem_append, h])).1
          · exact h
      · intro e herr
        simp [createReservationWithRetry, reservationCreate, h1, h2'] at herr
      · intro res st1 hok hatt
        simp [createReservationWithRetry, reservationCreate, h1, h2'] at hok
        obtain ⟨hres, hst⟩ := hok
        subst hres
        rfl
  · rw [Bool.not_eq_true] at h1
    refine ⟨?_, ?_, ?_, ?_⟩
    · simp [createReservationAttempts, reservationCreate, h1]
    · intro res st1 hok
      simp [createReservationWithRetry, reservationCreate, h1] at hok
      obtain ⟨hres, hst⟩ := hok
      subst hres
      subst hst
      have hnc := (noConflict_iff _ _).mp h1
      refine ⟨?_, rfl, rfl, ?_⟩
      · have hnotmem : retryRow1 st bookID userID now ∉ st.reservations ++ interf1 := by
          intro hmem
          exact ((hnc _ hmem).1) ⟨rfl, rfl⟩
        have hz := List.count_eq_zero.mpr hnotmem
        simp only [List.count_append] at hz ⊢
        have hone : List.count (retryRow1 st bookID userID now)
            [retryRow1 st bookID userID now] = 1 := by simp
        omega
      · intro r hr hb hq
        simp only [List.mem_append, List.mem_singleton] at hr
        rcases hr with h | h | h
        · exact absurd ⟨hb, hq⟩ (hnc r (by simp [List.mem_append, h])).1
        · exact absurd ⟨hb, hq⟩ (hnc r (by simp [List.mem_append, h])).1
        · exact h
    · intro e herr
      simp [createReservationWithRetry, reservationCreate, h1] at herr
    · intro res st1 hok hatt
      simp [createReservationAttempts, reservationCreate, h1] at hatt

/-- Witness for C8: a first-attempt collision against a racer's committed
row at position 1, recovered by the retried insert at position 2. -/
theorem reservationRetry_bounded_witness :
    createReservationAttempts stNoCopies [racerRow] 2 1 100 ≤ 2 ∧
    (retryRow2 stNoCopies [racerRow] 2 1 100).queuePosition =
      getNextQueuePosition (stNoCopies.reservations ++ [racerRow]) 2 :=
  ⟨(reservationRetry_bounded stNoCopies [racerRow] [] 2 1 100).1,
   (reservationRetry_bounded stNoCopies [racerRow] [] 2 1 100).2.2.2 _ _ rfl rfl⟩

/-- Claim C6: when the requester and class exist, no unit of the class is
AVAILABLE, and the requester already holds a reservation for the class,
`CheckoutBook` fails with `ErrDuplicateReservation`: no second entry is
created and the existing entry is not returned as the result (the whole
transaction aborts with an error). -/
theorem checkout_duplicate_reservation (st : LibState) (bookID userID now : Nat)
    (hu : userID ∈ st.users)
    (hb : ∃ bk ∈ st.books, bk.id = bookID)
    (hno : st.copies.filter
      (fun c => c.bookId == bookID && c.status == BookCopyStatus.available) = [])
    (hres : ∃ r ∈ st.reservations, r.bookId = bookID ∧ r.userId = userID) :
    checkoutBook st bookID userID now = Except.error GoErr.errDuplicateReservation := by
  obtain ⟨u, hu2⟩ : ∃ u, userGetByID st userID = some u := by
    rw [← Option.isSome_iff_exists, userGetByID, List.find?_isSome]
    exact ⟨userID, hu, by simp⟩
  obtain ⟨bk, hbk, hbkid⟩ := hb
  obtain ⟨b2, hb2⟩ : ∃ b2, bookGetByID st bookID = some b2 := by
    rw [← Option.isSome_iff_exists, bookGetByID, List.find?_isSome]
    exact ⟨bk, hbk, by simp [hbkid]⟩
  have hav : findAvailableForUpdate st bookID = none := by
    unfold findAvailableForUpdate
    rw [hno]
    rfl
  obtain ⟨r, hr, hrb, hru⟩ := hres
  obtain ⟨r2, hr2⟩ : ∃ r2, getByBookAndUser st bookID userID = some r2 := by
    rw [← Option.isSome_iff_exists, getByBookAndUser, List.find?_isSome]
    exact ⟨r, hr, by simp [hrb, hru]⟩
  simp [checkoutBook, checkoutBookTx, hu2, hb2, hav, hr2]

/-- Witness for C6: user 5 already queued for book 2 whose only copy is
out. -/
theorem checkout_duplicate_reservation_witness :
    checkoutBook stLoanAndQueue 2 5 999 = Except.error GoErr.errDuplicateReservation :=
  checkout_duplicate_reservation stLoanAndQueue 2 5 999 (by decide)
    ⟨fixtureBook, by decide, by decide⟩ (by decide)
    ⟨fixtureEntry, by decide, by decide⟩

theorem length_filter_checkedOut_updateStatus (l : List BookCopy) (cp : BookCopy)
    (hn : (l.map BookCopy.id).Nodup) (hmem : cp ∈ l)
    (hav : cp.status = BookCopyStatus.available) :
    ((updateStatus l cp.id BookCopyStatus.checkedOut).filter
      (fun c => c.status == BookCopyStatus.checkedOut)).length =
    (l.filter (fun c => c.status == BookCopyStatus.checkedOut)).length + 1 := by
  induction l with
  | nil => cases hmem
  | cons x xs ih =>
    rw [List.map_cons, List.nodup_cons] at hn
    rcases List.mem_cons.mp hmem with h1 | h1
    · subst h1
      have hxs : updateStatus xs cp.id BookCopyStatus.checkedOut = xs := by
        apply updateStatus_eq_self
        intro c hc hcontra
        exact hn.1 (hcontra ▸ List.mem_map_of_mem BookCopy.id hc)
      have hupd : updateStatus (cp :: xs) cp.id BookCopyStatus.checkedOut =
          ({ cp with status := BookCopyStatus.checkedOut } : BookCopy) :: xs := by
        unfold updateStatus at hxs ⊢
        rw [List.map_cons, if_pos (by simp), hxs]
      rw [hupd, List.filter_cons, List.filter_cons]
      simp [hav]
    · have hxid : ¬ x.id = cp.id := fun hcontra =>
        hn.1 (hcontra ▸ List.mem_map_of_mem BookCopy.id h1)
      have hupd : updateStatus (x :: xs) cp.id BookCopyStatus.checkedOut =
          x :: updateStatus xs cp.id BookCopyStatus.checkedOut := by
        unfold updateStatus
        rw [List.map_cons]
        simp [show (x.id == cp.id) = false by simpa using hxid]
      rw [hupd, List.filter_cons, List.filter_cons]
      have hrec := ih hn.2 h1
      by_cases hx : (x.status == BookCopyStatus.checkedOut) = true
      · simp only [hx, if_true, List.length_cons]
        omega
      · simp only [hx, Bool.false_eq_true, if_false]
        omega

/-- Claim C5: when the requester and class exist and some unit of the
class is AVAILABLE, `CheckoutBook` marks exactly one AVAILABLE unit of the
class CHECKED_OUT, appends one open loan for it (start `now`, due
`now + 14 days`, zero fine, no completion), creates no reservation, and
returns that loan; everything is committed. -/
theorem checkout_happy_path (st : LibState) (bookID userID now : Nat)
    (hu : userID ∈ st.users)
    (hb : ∃ bk ∈ st.books, bk.id = bookID)
    (hc : ∃ c ∈ st.copies, c.bookId = bookID ∧ c.status = BookCopyStatus.available)
    (hnodup : (st.copies.map BookCopy.id).Nodup) :
    ∃ cp co st1,
      checkoutBook st bookID userID now = Except.ok (CheckoutResult.loan co, st1) ∧
      cp ∈ st.copies ∧ cp.bookId = bookID ∧ cp.status = BookCopyStatus.available ∧
      co.bookCopyId = cp.id ∧ co.userId = userID ∧ co.checkoutAt = now ∧
      co.dueDate = now + LoanPeriodDays * secondsPerDay ∧ co.returnedAt = none ∧
      co.fineAmount = 0 ∧
      st1.copies = updateStatus st.copies cp.id BookCopyStatus.checkedOut ∧
      st1.checkouts = st.checkouts ++ [co] ∧
      st1.reservations = st.reservations ∧
      (st1.copies.filter (fun c => c.status == BookCopyStatus.checkedOut)).length =
        (st.copies.filter (fun c => c.status == BookCopyStatus.checkedOut)).length + 1 := by
  obtain ⟨u, hu2⟩ : ∃ u, userGetByID st userID = some u := by
    rw [← Option.isSome_iff_exists, userGetByID, List.find?_isSome]
    exact ⟨userID, hu, by simp⟩
  obtain ⟨bk, hbk, hbkid⟩ := hb
  obtain ⟨b2, hb2⟩ : ∃ b2, bookGetByID st bookID = some b2 := by
    rw [← Option.isSome_iff_exists, bookGetByID, List.find?_isSome]
    exact ⟨bk, hbk, by simp [hbkid]⟩
  obtain ⟨c0, hc0, hcb, hcs⟩ := hc
  have hfne : st.copies.filter
      (fun c => c.bookId == bookID && c.status == BookCopyStatus.available) ≠ [] := by
    intro hcontra
    have hmemf : c0 ∈ st.copies.filter
        (fun c => c.bookId == bookID && c.status == BookCopyStatus.available) :=
      List.mem_filter.mpr ⟨hc0, by simp [hcb, hcs]⟩
    rw [hcontra] at hmemf
    cases hmemf
  obtain ⟨cp, hcp⟩ : ∃ cp, findAvailableForUpdate st bookID = some cp := by
    unfold findAvailableForUpdate
    cases hmin : minCopyById (st.copies.filter
        (fun c => c.bookId == bookID && c.status == BookCopyStatus.available)) with
    | none => exact absurd (minCopyById_eq_none.mp hmin) hfne
    | some cp => exact ⟨cp, rfl⟩
  have hcpf : cp ∈ st.copies.filter
      (fun c => c.bookId == bookID && c.status == BookCopyStatus.available) :=
    minCopyById_mem hcp
  have hcpmem : cp ∈ st.copies := (List.mem_filter.mp hcpf).1
  have hcpprops := (List.mem_filter.mp hcpf).2
  have hcpb : cp.bookId = bookID := by
    simp only [Bool.and_eq_true, beq_iff_eq] at hcpprops
    exact hcpprops.1
  have hcps : cp.status = BookCopyStatus.available := by
    simp only [Bool.and_eq_true, beq_iff_eq] at hcpprops
    exact hcpprops.2
  refine ⟨cp, ⟨st.nextId, cp.id, userID, now, now + LoanPeriodDays * secondsPerDay,
      none, 0⟩,
    ⟨st.users, st.books, updateStatus st.copies cp.id BookCopyStatus.checkedOut,
      st.checkouts ++ [⟨st.nextId, cp.id, userID, now,
        now + LoanPeriodDays * secondsPerDay, none, 0⟩],
      st.reservations, st.nextId + 1⟩,
    ?_, hcpmem, hcpb, hcps, rfl, rfl, rfl, rfl, rfl, rfl, rfl, rfl, rfl, ?_⟩
  · simp [checkoutBook, checkoutBookTx, hu2, hb2, hcp]
  · exact length_filter_checkedOut_updateStatus st.copies cp hnodup hcpmem hcps

/-- Witness for C5: the single AVAILABLE copy of book 2 is claimed. -/
theorem checkout_happy_path_witness :
    ∃ cp co st1,
      checkoutBook stOneAvail 2 1 100 = Except.ok (CheckoutResult.loan co, st1) ∧
      cp ∈ stOneAvail.copies ∧ cp.bookId = 2 ∧ cp.status = BookCopyStatus.available ∧
      co.bookCopyId = cp.id ∧ co.userId = 1 ∧ co.checkoutAt = 100 ∧
      co.dueDate = 100 + LoanPeriodDays * secondsPerDay ∧ co.returnedAt = none ∧
      co.fineAmount = 0 ∧
      st1.copies = updateStatus stOneAvail.copies cp.id BookCopyStatus.checkedOut ∧
      st1.checkouts = stOneAvail.checkouts ++ [co] ∧
      st1.reservations = stOneAvail.reservations ∧
      (st1.copies.filter (fun c => c.status == BookCopyStatus.checkedOut)).length =
        (stOneAvail.copies.filter
          (fun c => c.status == BookCopyStatus.checkedOut)).length + 1 :=
  checkout_happy_path stOneAvail 2 1 100 (by decide)
    ⟨fixtureBook, by decide, by decide⟩
    ⟨{ id := 3, bookId := 2, status := BookCopyStatus.available }, by decide, by decide⟩
    (by decide)

theorem reload_markReturned (l : List Checkout) (k : Checkout) (j t f : Nat)
    (hfind : l.find? (fun c => c.id == j) = some k) (ho : k.returnedAt = none) :
    (markReturned l k.id t f).find? (fun c => c.id == j) =
      some { k with returnedAt := some t, fineAmount := f } := by
  rw [markReturned_find?, hfind]
  simp [ho]

/-- Claim C4: a Return on an unknown loan id fails with NotFound; the
first Return on an open loan succeeds, yielding the loan with its
completion timestamp and computed fine set; and every subsequent Return on
that id fails with AlreadyReturned (the failed transaction commits
nothing). -/
theorem return_idempotent (st : LibState) (checkoutID now now2 : Nat) :
    (checkoutGetByIDForUpdate st checkoutID = none →
      returnCheckout st checkoutID now now2 = Except.error GoErr.errCheckoutNotFound) ∧
    (∀ k, checkoutGetByIDForUpdate st checkoutID = some k → k.returnedAt = none →
      ∃ ret st1,
        returnCheckout st checkoutID now now2 = Except.ok (ret, st1) ∧
        ret.id = k.id ∧ ret.returnedAt = some now ∧
        ret.fineAmount = calculateFine k.dueDate now ∧
        ∀ n1 n2, returnCheckout st1 checkoutID n1 n2 =
          Except.error GoErr.errCheckoutAlreadyReturned) ∧
    (∀ k, checkoutGetByIDForUpdate st checkoutID = some k → k.returnedAt ≠ none →
      returnCheckout st checkoutID now now2 =
        Except.error GoErr.errCheckoutAlreadyReturned) := by
  refine ⟨?_, ?_, ?_⟩
  · intro h
    simp [returnCheckout, h]
  · intro k hfind ho
    cases hnext : getNextForBook { st with checkouts := markReturned st.checkouts k.id now (calculateFine k.dueDate now), copies := updateStatus st.copies k.bookCopyId BookCopyStatus.available } (((st.copies.find? (fun c => c.id == k.bookCopyId)).map BookCopy.bookId).getD 0) with
    | none =>
      have hreload : checkoutGetByIDForUpdate { st with checkouts := markReturned st.checkouts k.id now (calculateFine k.dueDate now), copies := updateStatus st.copies k.bookCopyId BookCopyStatus.available } checkoutID = some { k with returnedAt := some now, fineAmount := calculateFine k.dueDate now } :=
        reload_markReturned st.checkouts k checkoutID now _ hfind ho
      refine ⟨⟨k.id, k.bookCopyId, k.userId, k.checkoutAt, k.dueDate, some now, calculateFine k.dueDate now⟩, { st with checkouts := markReturned st.checkouts k.id now (calculateFine k.dueDate now), copies := updateStatus st.copies k.bookCopyId BookCopyStatus.available }, ?_, rfl, rfl, rfl, ?_⟩
      · simp [returnCheckout, hfind, ho, hnext, hreload]
      · intro n1 n2
        simp [returnCheckout, hreload]
    | some res =>
      have hreload : checkoutGetByIDForUpdate { st with checkouts := markReturned st.checkouts k.id now (calculateFine k.dueDate now) ++ [⟨st.nextId, k.bookCopyId, res.userId, now2, now2 + LoanPeriodDays * secondsPerDay, none, 0⟩], copies := updateStatus (updateStatus st.copies k.bookCopyId BookCopyStatus.available) k.bookCopyId BookCopyStatus.checkedOut, reservations := reservationDelete st.reservations res.id, nextId := st.nextId + 1 } checkoutID = some { k with returnedAt := some now, fineAmount := calculateFine k.dueDate now } := by
        unfold checkoutGetByIDForUpdate
        exact find?_append_some (reload_markReturned st.checkouts k checkoutID now _ hfind ho)
      refine ⟨⟨k.id, k.bookCopyId, k.userId, k.checkoutAt, k.dueDate, some now, calculateFine k.dueDate now⟩, { st with checkouts := markReturned st.checkouts k.id now (calculateFine k.dueDate now) ++ [⟨st.nextId, k.bookCopyId, res.userId, now2, now2 + LoanPeriodDays * secondsPerDay, none, 0⟩], copies := updateStatus (updateStatus st.copies k.bookCopyId BookCopyStatus.available) k.bookCopyId BookCopyStatus.checkedOut, reservations := reservationDelete st.reservations res.id, nextId := st.nextId + 1 }, ?_, rfl, rfl, rfl, ?_⟩
      · simp [returnCheckout, hfind, ho, hnext, hreload]
      · intro n1 n2
        simp [returnCheckout, hreload]
  · intro k hfind hret
    have hs : (k.returnedAt).isSome = true := Option.ne_none_iff_isSome.mp hret
    simp [returnCheckout, hfind, hs]

/-- Witness for C4: returning loan 4 twenty days after checkout succeeds
with fine 60; a second return fails with AlreadyReturned. -/
theorem return_idempotent_witness :
    ∃ ret st1,
      returnCheckout stLoanNoQueue 4 1728100 1728100 = Except.ok (ret, st1) ∧
      ret.id = fixtureLoan.id ∧ ret.returnedAt = some 1728100 ∧
      ret.fineAmount = calculateFine fixtureLoan.dueDate 1728100 ∧
      ∀ n1 n2, returnCheckout st1 4 n1 n2 =
        Except.error GoErr.errCheckoutAlreadyReturned :=
  (return_idempotent stLoanNoQueue 4 1728100 1728100).2.1 fixtureLoan rfl rfl

/-- Claim C3: returning an open loan while reservations exist for the
loan's book promotes, within the same transaction, the entry with the
smallest queue position (ties broken by earliest creation timestamp): the
freed copy goes back to CHECKED_OUT, that entry is deleted, and a fresh
open 14-day loan starting at the second clock read `now2` is created for
the entry's requester — while the operation still returns the original,
now completed, loan. -/
theorem return_promotes_head (st : LibState) (loanID now now2 : Nat)
    (k : Checkout) (cp : BookCopy)
    (hfind : checkoutGetByIDForUpdate st loanID = some k)
    (ho : k.returnedAt = none)
    (hcp : st.copies.find? (fun c => c.id == k.bookCopyId) = some cp)
    (hexists : ∃ r ∈ st.reservations, r.bookId = cp.bookId) :
    ∃ entry ret st1,
      entry ∈ st.reservations ∧ entry.bookId = cp.bookId ∧
      (∀ r ∈ st.reservations, r.bookId = cp.bookId →
        entry.queuePosition < r.queuePosition ∨
          (entry.queuePosition = r.queuePosition ∧ entry.createdAt ≤ r.createdAt)) ∧
      returnCheckout st loanID now now2 = Except.ok (ret, st1) ∧
      st1.copies = updateStatus st.copies k.bookCopyId BookCopyStatus.checkedOut ∧
      st1.reservations = reservationDelete st.reservations entry.id ∧
      st1.checkouts = markReturned st.checkouts k.id now (calculateFine k.dueDate now) ++ [⟨st.nextId, k.bookCopyId, entry.userId, now2, now2 + LoanPeriodDays * secondsPerDay, none, 0⟩] ∧
      ret.id = k.id ∧ ret.returnedAt = some now ∧
      ret.fineAmount = calculateFine k.dueDate now := by
  obtain ⟨r0, hr0, hr0b⟩ := hexists
  have hfne : st.reservations.filter (fun r => r.bookId == cp.bookId) ≠ [] := by
    intro hcontra
    have hmemf : r0 ∈ st.reservations.filter (fun r => r.bookId == cp.bookId) :=
      List.mem_filter.mpr ⟨hr0, by simp [hr0b]⟩
    rw [hcontra] at hmemf
    cases hmemf
  obtain ⟨entry, hentry⟩ : ∃ e,
      minResByOrder (st.reservations.filter (fun r => r.bookId == cp.bookId)) = some e := by
    cases hmin : minResByOrder (st.reservations.filter (fun r => r.bookId == cp.bookId)) with
    | none => exact absurd (minResByOrder_eq_none.mp hmin) hfne
    | some e => exact ⟨e, rfl⟩
  have hef : entry ∈ st.reservations.filter (fun r => r.bookId == cp.bookId) :=
    minResByOrder_mem hentry
  have hemem : entry ∈ st.reservations := (List.mem_filter.mp hef).1
  have heb : entry.bookId = cp.bookId := by
    have := (List.mem_filter.mp hef).2
    simpa using this
  have hmin : ∀ r ∈ st.reservations, r.bookId = cp.bookId →
      entry.queuePosition < r.queuePosition ∨
        (entry.queuePosition = r.queuePosition ∧ entry.createdAt ≤ r.createdAt) := by
    intro r hr hrb
    have hrf : r ∈ st.reservations.filter (fun x => x.bookId == cp.bookId) :=
      List.mem_filter.mpr ⟨hr, by simp [hrb]⟩
    have hb := minResByOrder_min hentry r hrf
    simpa [resBefore, Bool.or_eq_true, Bool.and_eq_true, decide_eq_true_eq,
      beq_iff_eq] using hb
  have hnext : getNextForBook { st with checkouts := markReturned st.checkouts k.id now (calculateFine k.dueDate now), copies := updateStatus st.copies k.bookCopyId BookCopyStatus.available } cp.bookId = some entry := by
    unfold getNextForBook
    exact hentry
  have hreload : checkoutGetByIDForUpdate { st with checkouts := markReturned st.checkouts k.id now (calculateFine k.dueDate now) ++ [⟨st.nextId, k.bookCopyId, entry.userId, now2, now2 + LoanPeriodDays * secondsPerDay, none, 0⟩], copies := updateStatus (updateStatus st.copies k.bookCopyId BookCopyStatus.available) k.bookCopyId BookCopyStatus.checkedOut, reservations := reservationDelete st.reservations entry.id, nextId := st.nextId + 1 } loanID = some { k with returnedAt := some now, fineAmount := calculateFine k.dueDate now } := by
    unfold checkoutGetByIDForUpdate
    exact find?_append_some (reload_markReturned st.checkouts k loanID now _ hfind ho)
  refine ⟨entry, ⟨k.id, k.bookCopyId, k.userId, k.checkoutAt, k.dueDate, some now, calculateFine k.dueDate now⟩, { st with checkouts := markReturned st.checkouts k.id now (calculateFine k.dueDate now) ++ [⟨st.nextId, k.bookCopyId, entry.userId, now2, now2 + LoanPeriodDays * secondsPerDay, none, 0⟩], copies := updateStatus (updateStatus st.copies k.bookCopyId BookCopyStatus.available) k.bookCopyId BookCopyStatus.checkedOut, reservations := reservationDelete st.reservations entry.id, nextId := st.nextId + 1 }, hemem, heb, hmin, ?_, ?_, rfl, rfl, rfl, rfl, rfl⟩
  · simp [returnCheckout, hfind, ho, hcp, hnext, hreload]
  · exact updateStatus_updateStatus st.copies k.bookCopyId _ _

/-- Witness for C3: returning loan 4 of `stLoanAndQueue` promotes user 5's
position-1 entry. -/
theorem return_promotes_head_witness :
    ∃ entry ret st1,
      entry ∈ stLoanAndQueue.reservations ∧ entry.bookId = 2 ∧
      (∀ r ∈ stLoanAndQueue.reservations, r.bookId = 2 →
        entry.queuePosition < r.queuePosition ∨
          (entry.queuePosition = r.queuePosition ∧ entry.createdAt ≤ r.createdAt)) ∧
      returnCheckout stLoanAndQueue 4 1728100 1728105 = Except.ok (ret, st1) ∧
      st1.copies = updateStatus stLoanAndQueue.copies 3 BookCopyStatus.checkedOut ∧
      st1.reservations = reservationDelete stLoanAndQueue.reservations entry.id ∧
      st1.checkouts = markReturned stLoanAndQueue.checkouts 4 1728100 (calculateFine fixtureLoan.dueDate 1728100) ++ [⟨7, 3, entry.userId, 1728105, 1728105 + LoanPeriodDays * secondsPerDay, none, 0⟩] ∧
      ret.id = 4 ∧ ret.returnedAt = some 1728100 ∧
      ret.fineAmount = calculateFine fixtureLoan.dueDate 1728100 :=
  return_promotes_head stLoanAndQueue 4 1728100 1728105 fixtureLoan
    ⟨3, 2, BookCopyStatus.checkedOut⟩ rfl rfl rfl
    ⟨fixtureEntry, by decide, by decide⟩

theorem copy_eq_of_id {l : List BookCopy} (hn : (l.map BookCopy.id).Nodup)
    {a b : BookCopy} (ha : a ∈ l) (hb : b ∈ l) (hid : a.id = b.id) : a = b :=
  List.inj_on_of_nodup_map hn ha hb hid

theorem openCount_pos {l : List Checkout} {k : Checkout} {i : Nat}
    (hk : k ∈ l) (ho : k.returnedAt = none) (hb : k.bookCopyId = i) :
    1 ≤ openCount l i := by
  unfold openCount
  have hmem : k ∈ l.filter (fun c => c.bookCopyId == i && c.returnedAt.isNone) :=
    List.mem_filter.mpr ⟨hk, by simp [hb, ho]⟩
  exact List.length_pos.mpr (List.ne_nil_of_mem hmem)

theorem openCount_singleton_open (co : Checkout) (hco : co.returnedAt = none) (i : Nat) :
    openCount [co] i = if co.bookCopyId = i then 1 else 0 := by
  unfold openCount
  by_cases h : co.bookCopyId = i <;> simp [h, hco]

theorem stateInv_init (users : List Nat) (nid : Nat) :
    StateInv { users := users, books := [], copies := [], checkouts := [], reservations := [], nextId := nid } := by
  simp [StateInv]

theorem stateInv_createBook (st : LibState) (title author : String) (n : Nat)
    (hinv : StateInv st) : StateInv (createBook st title author n).2 := by
  obtain ⟨hc1, hk1, hn1, hn2, hsc⟩ := hinv
  simp only [createBook, StateInv]
  refine ⟨?_, ?_, ?_, ?_, ?_⟩
  · intro c hc
    simp only [List.mem_append, List.mem_map, List.mem_range] at hc
    rcases hc with hc | ⟨i, hi, hci⟩
    · have := hc1 c hc
      omega
    · subst hci
      simp only
      omega
  · intro k hk
    have := hk1 k hk
    omega
  · rw [List.map_append, List.map_map, List.nodup_append]
    refine ⟨hn1, ?_, ?_⟩
    · apply List.Nodup.map ?_ (List.nodup_range n)
      intro a b hab
      simp only [Function.comp] at hab
      omega
    · intro a ha hb
      simp only [List.mem_map] at ha
      obtain ⟨c, hc, hca⟩ := ha
      simp only [List.mem_map, List.mem_range, Function.comp] at hb
      obtain ⟨i, hi, hia⟩ := hb
      have := hc1 c hc
      omega
  · exact hn2
  · intro c hc
    simp only [List.mem_append, List.mem_map, List.mem_range] at hc
    rcases hc with hc | ⟨i, hi, hci⟩
    · exact hsc c hc
    · subst hci
      simp only
      have hz : openCount st.checkouts (st.nextId + 1 + i) = 0 := by
        apply openCount_eq_zero
        intro k hk
        have := hk1 k hk
        omega
      simp [hz]

theorem stateInv_addBookCopy (st : LibState) (bookID : Nat) (c : BookCopy)
    (st1 : LibState) (hinv : StateInv st)
    (hop : addBookCopy st bookID = Except.ok (c, st1)) : StateInv st1 := by
  obtain ⟨hc1, hk1, hn1, hn2, hsc⟩ := hinv
  unfold addBookCopy at hop
  cases hb : bookGetByID st bookID with
  | none =>
    rw [hb] at hop
    cases hop
  | some bk =>
    rw [hb] at hop
    simp only [Except.ok.injEq, Prod.mk.injEq] at hop
    obtain ⟨hc, hst⟩ := hop
    subst hst
    dsimp only [StateInv]
    refine ⟨?_, ?_, ?_, ?_, ?_⟩
    · intro c2 hc2
      simp only [List.mem_append, List.mem_singleton] at hc2
      rcases hc2 with hc2 | hc2
      · have := hc1 c2 hc2
        omega
      · subst hc2
        simp only
        omega
    · intro k hk
      have := hk1 k hk
      omega
    · rw [List.map_append, List.nodup_append]
      refine ⟨hn1, by simp, ?_⟩
      intro a ha hb2
      simp only [List.mem_map] at ha
      obtain ⟨c2, hc2, hca⟩ := ha
      simp only [List.map_cons, List.map_nil, List.mem_singleton] at hb2
      have := hc1 c2 hc2
      omega
    · exact hn2
    · intro c2 hc2
      simp only [List.mem_append, List.mem_singleton] at hc2
      rcases hc2 with hc2 | hc2
      · exact hsc c2 hc2
      · subst hc2
        simp only
        have hz : openCount st.checkouts st.nextId = 0 := by
          apply openCount_eq_zero
          intro k hk
          have := hk1 k hk
          omega
        simp [hz]

theorem checkoutBookTx_loanOk {st : LibState} {bookID userID now : Nat}
    {co : Checkout} {stx : LibState}
    (h : checkoutBookTx st bookID userID now = CheckoutTx.loanOk co stx) :
    ∃ cp, findAvailableForUpdate st bookID = some cp ∧
      co = ⟨st.nextId, cp.id, userID, now, now + LoanPeriodDays * secondsPerDay, none, 0⟩ ∧
      stx = { st with copies := updateStatus st.copies cp.id BookCopyStatus.checkedOut, checkouts := st.checkouts ++ [co], nextId := st.nextId + 1 } := by
  unfold checkoutBookTx at h
  split at h
  · exact CheckoutTx.noConfusion h
  · split at h
    · exact CheckoutTx.noConfusion h
    · split at h
      next cp heq =>
        simp only [CheckoutTx.loanOk.injEq] at h
        obtain ⟨h1, h2⟩ := h
        subst h1
        subst h2
        exact ⟨cp, heq, rfl, rfl⟩
      next heq =>
        split at h
        · exact CheckoutTx.noConfusion h
        · split at h
          · exact CheckoutTx.noConfusion h
          · exact CheckoutTx.noConfusion h

theorem stateInv_checkoutBook (st : LibState) (bookID userID now : Nat)
    (r : CheckoutResult) (st1 : LibState) (hinv : StateInv st)
    (hop : checkoutBook st bookID userID now = Except.ok (r, st1)) : StateInv st1 := by
  unfold checkoutBook at hop
  cases htx : checkoutBookTx st bookID userID now with
  | reservationMade res stx =>
    rw [htx] at hop
    simp only [Except.ok.injEq, Prod.mk.injEq] at hop
    obtain ⟨_, hst⟩ := hop
    subst hst
    exact hinv
  | txError e =>
    rw [htx] at hop
    cases hop
  | loanOk co stx =>
    rw [htx] at hop
    simp only [Except.ok.injEq, Prod.mk.injEq] at hop
    obtain ⟨_, hst⟩ := hop
    subst hst
    obtain ⟨cp, hcp, hco, hstx⟩ := checkoutBookTx_loanOk htx
    subst hco
    subst hstx
    obtain ⟨hc1, hk1, hn1, hn2, hsc⟩ := hinv
    have hcpf := List.mem_filter.mp (minCopyById_mem hcp)
    have hcpmem : cp ∈ st.copies := hcpf.1
    have hcpav : cp.status = BookCopyStatus.available := by
      have := hcpf.2
      simp only [Bool.and_eq_true, beq_iff_eq] at this
      exact this.2
    dsimp only [StateInv]
    refine ⟨?_, ?_, ?_, ?_, ?_⟩
    · intro c hc
      unfold updateStatus at hc
      obtain ⟨c0, hc0, hcc⟩ := List.mem_map.mp hc
      have hlt := hc1 c0 hc0
      by_cases hid : (c0.id == cp.id) = true
      · rw [if_pos hid] at hcc
        subst hcc
        simp only
        omega
      · rw [if_neg hid] at hcc
        subst hcc
        omega
    · intro k hk
      simp only [List.mem_append, List.mem_singleton] at hk
      rcases hk with hk | hk
      · have := hk1 k hk
        omega
      · subst hk
        simp only
        have := hc1 cp hcpmem
        omega
    · rw [updateStatus_map_id]
      exact hn1
    · rw [List.map_append, List.nodup_append]
      refine ⟨hn2, by simp, ?_⟩
      intro a ha hb
      simp only [List.mem_map] at ha
      obtain ⟨k, hk, hka⟩ := ha
      simp only [List.map_cons, List.map_nil, List.mem_singleton] at hb
      have := hk1 k hk
      omega
    · intro c hc
      unfold updateStatus at hc
      obtain ⟨c0, hc0, hcc⟩ := List.mem_map.mp hc
      have hcount0 := hsc c0 hc0
      rw [openCount_append]
      by_cases hid : (c0.id == cp.id) = true
      · have hc0cp : c0 = cp := copy_eq_of_id hn1 hc0 hcpmem (by simpa using hid)
        rw [if_pos hid] at hcc
        subst hcc
        simp only
        rw [openCount_singleton_open _ rfl]
        simp only
        have hza : c0.status = BookCopyStatus.available := hc0cp ▸ hcpav
        rw [hza] at hcount0
        simp only [reduceCtorEq, if_false] at hcount0
        have hcpid : cp.id = c0.id := by rw [hc0cp]
        simp [hcount0, hcpid, if_pos]
      · rw [if_neg hid] at hcc
        subst hcc
        rw [openCount_singleton_open _ rfl]
        simp only
        have hne : ¬ cp.id = c0.id := by
          intro hcontra
          exact hid (by simp [hcontra])
        rw [if_neg hne, hcount0]
        omega

theorem stateInv_returnCheckout (st : LibState) (checkoutID now now2 : Nat)
    (ret : Checkout) (st1 : LibState) (hinv : StateInv st)
    (hop : returnCheckout st checkoutID now now2 = Except.ok (ret, st1)) : StateInv st1 := by
  obtain ⟨hc1, hk1, hn1, hn2, hsc⟩ := hinv
  unfold returnCheckout at hop
  cases hfind : checkoutGetByIDForUpdate st checkoutID with
  | none =>
    rw [hfind] at hop
    cases hop
  | some k =>
    rw [hfind] at hop
    simp only at hop
    by_cases hret : (k.returnedAt).isSome = true
    · rw [if_pos hret] at hop
      cases hop
    · rw [if_neg hret] at hop
      have ho : k.returnedAt = none := Option.not_isSome_iff_eq_none.mp hret
      have hkmem : k ∈ st.checkouts := List.mem_of_find?_eq_some hfind
      have hkb := hk1 k hkmem
      split at hop
      · split at hop
        · cases hop
        next reloaded hreload =>
          simp only [Except.ok.injEq, Prod.mk.injEq] at hop
          obtain ⟨hr, hst⟩ := hop
          subst hst
          dsimp only [StateInv]
          refine ⟨?_, ?_, ?_, ?_, ?_⟩
          · intro c hc
            unfold updateStatus at hc
            obtain ⟨c0, hc0, hcc⟩ := List.mem_map.mp hc
            have := hc1 c0 hc0
            by_cases hid : (c0.id == k.bookCopyId) = true
            · rw [if_pos hid] at hcc
              subst hcc
              simp only
              omega
            · rw [if_neg hid] at hcc
              subst hcc
              omega
          · intro kk hkk
            unfold markReturned at hkk
            obtain ⟨k0, hk0, hkk2⟩ := List.mem_map.mp hkk
            have := hk1 k0 hk0
            by_cases hcase : (k0.id == k.id && k0.returnedAt.isNone) = true
            · rw [if_pos hcase] at hkk2
              subst hkk2
              simp only
              omega
            · rw [if_neg hcase] at hkk2
              subst hkk2
              omega
          · rw [updateStatus_map_id]
            exact hn1
          · rw [markReturned_map_id]
            exact hn2
          · intro c hc
            unfold updateStatus at hc
            obtain ⟨c0, hc0, hcc⟩ := List.mem_map.mp hc
            have hcount0 := hsc c0 hc0
            have hmr := openCount_markReturned st.checkouts k now
              (calculateFine k.dueDate now) c0.id hn2 hkmem ho
            by_cases hid : (c0.id == k.bookCopyId) = true
            · have hidp : k.bookCopyId = c0.id := by
                have : c0.id = k.bookCopyId := by simpa using hid
                omega
              have hpos := openCount_pos hkmem ho hidp
              rw [if_pos hid] at hcc
              subst hcc
              simp only
              rw [if_pos hidp] at hmr
              by_cases hs : c0.status = BookCopyStatus.checkedOut
              · rw [if_pos hs] at hcount0
                simp only [reduceCtorEq, if_false]
                omega
              · rw [if_neg hs] at hcount0
                omega
            · rw [if_neg hid] at hcc
              subst hcc
              have hidn : ¬ k.bookCopyId = c0.id := by
                intro hcontra
                exact hid (by simp [hcontra])
              rw [if_neg hidn] at hmr
              omega
      next res hnext =>
        split at hop
        · cases hop
        next reloaded hreload =>
          simp only [Except.ok.injEq, Prod.mk.injEq] at hop
          obtain ⟨hr, hst⟩ := hop
          subst hst
          rw [updateStatus_updateStatus]
          dsimp only [StateInv]
          refine ⟨?_, ?_, ?_, ?_, ?_⟩
          · intro c hc
            unfold updateStatus at hc
            obtain ⟨c0, hc0, hcc⟩ := List.mem_map.mp hc
            have := hc1 c0 hc0
            by_cases hid : (c0.id == k.bookCopyId) = true
            · rw [if_pos hid] at hcc
              subst hcc
              simp only
              omega
            · rw [if_neg hid] at hcc
              subst hcc
              omega
          · intro kk hkk
            simp only [List.mem_append, List.mem_singleton] at hkk
            rcases hkk with hkk | hkk
            · unfold markReturned at hkk
              obtain ⟨k0, hk0, hkk2⟩ := List.mem_map.mp hkk
              have := hk1 k0 hk0
              by_cases hcase : (k0.id == k.id && k0.returnedAt.isNone) = true
              · rw [if_pos hcase] at hkk2
                subst hkk2
                simp only
                omega
              · rw [if_neg hcase] at hkk2
                subst hkk2
                omega
            · subst hkk
              simp only
              omega
          · rw [updateStatus_map_id]
            exact hn1
          · rw [List.map_append, List.nodup_append]
            rw [markReturned_map_id]
            refine ⟨hn2, by simp, ?_⟩
            intro a ha hb
            simp only [List.mem_map] at ha
            obtain ⟨k0, hk0, hka⟩ := ha
            simp only [List.map_cons, List.map_nil, List.mem_singleton] at hb
            have := hk1 k0 hk0
            omega
          · intro c hc
            unfold updateStatus at hc
            obtain ⟨c0, hc0, hcc⟩ := List.mem_map.mp hc
            have hcount0 := hsc c0 hc0
            have hmr := openCount_markReturned st.checkouts k now
              (calculateFine k.dueDate now) c0.id hn2 hkmem ho
            rw [openCount_append, openCount_singleton_open _ rfl]
            simp only
            by_cases hid : (c0.id == k.bookCopyId) = true
            · have hidp : k.bookCopyId = c0.id := by
                have : c0.id = k.bookCopyId := by simpa using hid
                omega
              have hpos := openCount_pos hkmem ho hidp
              rw [if_pos hid] at hcc
              subst hcc
              simp only
              rw [if_pos hidp] at hmr ⊢
              simp only [if_true]
              by_cases hs : c0.status = BookCopyStatus.checkedOut
              · rw [if_pos hs] at hcount0
                omega
              · rw [if_neg hs] at hcount0
                omega
            · rw [if_neg hid] at hcc
              subst hcc
              have hidn : ¬ k.bookCopyId = c0.id := by
                intro hcontra
                exact hid (by simp [hcontra])
              rw [if_neg hidn] at hmr ⊢
              omega

theorem stateInv_of_reach {st : LibState} (h : Reach st) : StateInv st := by
  induction h with
  | init users nid => exact stateInv_init users nid
  | stepCreateBook title author n _ ih => exact stateInv_createBook _ title author n ih
  | stepAddCopy bookID _ hop ih => exact stateInv_addBookCopy _ bookID _ _ ih hop
  | stepCheckout bookID userID now _ hop ih =>
    exact stateInv_checkoutBook _ bookID userID now _ _ ih hop
  | stepReturn checkoutID now now2 _ hop ih =>
    exact stateInv_returnCheckout _ checkoutID now now2 _ _ ih hop

/-- Claim C9: in every state reachable by CreateBook, AddBookCopy,
CheckoutBook and ReturnCheckout, a copy's status is CHECKED_OUT exactly
when one open checkout references it, and no copy ever has more than one
open checkout. -/
theorem unit_status_iff_open_loan (st : LibState) (hr : Reach st) :
    ∀ c ∈ st.copies,
      (c.status = BookCopyStatus.checkedOut ↔ openCount st.checkouts c.id = 1) ∧
      openCount st.checkouts c.id ≤ 1 := by
  obtain ⟨_, _, _, _, hsc⟩ := stateInv_of_reach hr
  intro c hc
  have hcount := hsc c hc
  by_cases hs : c.status = BookCopyStatus.checkedOut
  · rw [if_pos hs] at hcount
    exact ⟨⟨fun _ => hcount, fun _ => hs⟩, by omega⟩
  · rw [if_neg hs] at hcount
    refine ⟨⟨fun h1 => absurd h1 hs, fun h1 => ?_⟩, by omega⟩
    rw [hcount] at h1
    exact absurd h1 (by omega)

/-- Witness for C9: the state reached by creating a one-copy book and
checking it out. -/
theorem unit_status_iff_open_loan_witness :
    (({ id := 3, bookId := 2, status := BookCopyStatus.checkedOut } : BookCopy).status = BookCopyStatus.checkedOut ↔ openCount stReachLoan.checkouts 3 = 1) ∧
    openCount stReachLoan.checkouts 3 ≤ 1 :=
  unit_status_iff_open_loan stReachLoan
    (Reach.stepCheckout 2 1 100 (Reach.stepCreateBook "t" "a" 1 (Reach.init [1] 2)) rfl)
    ⟨3, 2, BookCopyStatus.checkedOut⟩ (by decide)
